import Mathlib

/-!
Verification of the `gql-utils` core (file `index.js` of the repository):
a GraphQL query-construction and execution client.  The JavaScript source
is shallowly embedded below: JS values become the inductive `JsVal`,
JS strings become Lean `String` (scanned as `List Char` where the source
uses regular expressions), the asynchronous execution pipeline becomes
explicit state passing over a cache association list, and thrown errors
become `Option`/`Except` results.
-/

set_option autoImplicit false

/-- Model of a JavaScript value as it flows through the encoder, the
template engine and the execution pipeline.  Plain objects are ordered
association lists (JS object keys keep insertion order and are unique);
numbers are modelled as integers (every numeric literal exercised by the
library's contract here is an integer). -/
inductive JsVal where
  | null
  | undefined
  | bool (b : Bool)
  | num (n : Int)
  | str (s : String)
  | arr (elems : List JsVal)
  | obj (fields : List (String × JsVal))

/-- JS truthiness (`Boolean(v)`): `null`, `undefined`, `false`, `0` and
the empty string are falsy; every object and array is truthy. -/
def truthy : JsVal → Bool
  | JsVal.null => false
  | JsVal.undefined => false
  | JsVal.bool b => b
  | JsVal.num n => n != 0
  | JsVal.str s => s != ""
  | JsVal.arr _ => true
  | JsVal.obj _ => true

/-- The whitespace class of the JS regex escape `\s` (ASCII part). -/
def jsWs (c : Char) : Bool :=
  c == ' ' || c == '\t' || c == '\n' || c == '\r' || c == '\x0b' || c == '\x0c'

/-- Whether the first list is a prefix of the second (character lists). -/
def isPrefixChars : List Char → List Char → Bool
  | [], _ => true
  | _ :: _, [] => false
  | p :: ps, c :: cs => p == c && isPrefixChars ps cs

/-- Whether `pat` occurs as a contiguous substring of the second list;
models an unanchored JS regex search for a fixed literal pattern. -/
def containsSub (pat : List Char) : List Char → Bool
  | [] => isPrefixChars pat []
  | c :: rest => isPrefixChars pat (c :: rest) || containsSub pat rest

/-- Strip an expected prefix from a character list, returning the
remainder on success. -/
def dropPrefixChars : List Char → List Char → Option (List Char)
  | [], l => some l
  | _ :: _, [] => none
  | p :: ps, c :: cs => if p == c then dropPrefixChars ps cs else none

/-- `Array.prototype.join(sep)` on a list of already-stringified parts. -/
def joinSep (sep : String) : List String → String
  | [] => ""
  | [x] => x
  | x :: rest => x ++ sep ++ joinSep sep rest

/-- One hexadecimal digit (lower case), for JSON control-character escapes. -/
def hexDigit (n : Nat) : Char :=
  if n < 10 then Char.ofNat (48 + n) else Char.ofNat (87 + n)

/-- Four-digit hexadecimal rendering used by `\uXXXX` escapes. -/
def hex4 (n : Nat) : List Char :=
  [hexDigit (n / 4096 % 16), hexDigit (n / 256 % 16), hexDigit (n / 16 % 16), hexDigit (n % 16)]

/-- Per-character escaping of `JSON.stringify` for string values. -/
def jsonEscapeChar (c : Char) : List Char :=
  if c == '"' then ['\\', '"']
  else if c == '\\' then ['\\', '\\']
  else if c == '\x08' then ['\\', 'b']
  else if c == '\t' then ['\\', 't']
  else if c == '\n' then ['\\', 'n']
  else if c == '\x0c' then ['\\', 'f']
  else if c == '\r' then ['\\', 'r']
  else if c.toNat < 32 then '\\' :: 'u' :: hex4 c.toNat
  else [c]

/-- `JSON.stringify` applied to a string: a quoted, escaped literal. -/
def jsonQuote (s : String) : String :=
  String.mk ('"' :: (s.data.flatMap jsonEscapeChar) ++ ['"'])

mutual

/-- JS `String(v)` coercion (used by `Array.prototype.join`). -/
def jsToString : JsVal → String
  | JsVal.null => "null"
  | JsVal.undefined => "undefined"
  | JsVal.bool b => cond b "true" "false"
  | JsVal.num n => toString n
  | JsVal.str s => s
  | JsVal.obj _ => "[object Object]"
  | JsVal.arr es => joinSep "," (jsToStringList es)

/-- Elementwise stringification of `Array.prototype.toString`
(`null` and `undefined` elements render as the empty string). -/
def jsToStringList : List JsVal → List String
  | [] => []
  | JsVal.null :: rest => "" :: jsToStringList rest
  | JsVal.undefined :: rest => "" :: jsToStringList rest
  | e :: rest => jsToString e :: jsToStringList rest

end

mutual

/-- `JSON.stringify` on a general value (`none` models the JS `undefined`
result on a bare `undefined` argument). -/
def jsonStringifyVal : JsVal → Option String
  | JsVal.undefined => none
  | JsVal.null => some "null"
  | JsVal.bool b => some (cond b "true" "false")
  | JsVal.num n => some (toString n)
  | JsVal.str s => some (jsonQuote s)
  | JsVal.arr es => some ("[" ++ joinSep "," (jsonArrItems es) ++ "]")
  | JsVal.obj fs => some ("\x7b" ++ joinSep "," (jsonObjItems fs) ++ "\x7d")

/-- Array elements under `JSON.stringify` (`undefined` becomes `null`). -/
def jsonArrItems : List JsVal → List String
  | [] => []
  | e :: rest => ((jsonStringifyVal e).getD "null") :: jsonArrItems rest

/-- Object entries under `JSON.stringify` (`undefined` values are dropped). -/
def jsonObjItems : List (String × JsVal) → List String
  | [] => []
  | (k, v) :: rest =>
    match jsonStringifyVal v with
    | some s => (jsonQuote k ++ ":" ++ s) :: jsonObjItems rest
    | none => jsonObjItems rest

end

/-- The fixed prefix of the enum sentinel (`ENUM_PREFIX` in the source). -/
def enumMarker : String := "__ENUM__::"

/-- Character class of the capture group in
`ENUM_REGEX = ^__ENUM__::([A-Za-z_]+)$`. -/
def isEnumIdentChar (c : Char) : Bool :=
  ('A' ≤ c && c ≤ 'Z') || ('a' ≤ c && c ≤ 'z') || c == '_'

/-- `str.match(ENUM_REGEX)`: the string must consist of the sentinel
prefix followed by one or more `[A-Za-z_]` characters; on success the
captured identifier is returned (always non-empty, so the source's
truthiness test on the capture is equivalent to a successful match). -/
def enumCapture (s : String) : Option String :=
  match dropPrefixChars enumMarker.data s.data with
  | some rest =>
    if rest != [] && rest.all isEnumIdentChar then some (String.mk rest) else none
  | none => none

/-- `convertStrToGqlArg`: an enum-sentinel string becomes the bare
identifier, any other string becomes a JSON quoted/escaped literal. -/
def convertStrToGqlArg (str : String) : String :=
  match enumCapture str with
  | some val => val
  | none => jsonQuote str

/-- JS template-literal coercion of a string-or-null encoder result
(`null` prints as the text `null` inside a template literal). -/
def jsTemplate : Option String → String
  | some s => s
  | none => "null"

mutual

/-- `convertToGqlArg`: `none` models the bare JS `null` the source
returns for `null`/`undefined` arguments (which only prints as `null`
when interpolated into a template literal); numbers print in decimal;
strings go through `convertStrToGqlArg`; plain objects recurse with
braces; everything else falls back to `JSON.stringify`. -/
def convertToGqlArg : JsVal → Option String
  | JsVal.null => none
  | JsVal.undefined => none
  | JsVal.num n => some (toString n)
  | JsVal.str s => some (convertStrToGqlArg s)
  | JsVal.obj fs => some ("\x7b" ++ joinSep ", " (gqlArgEntries fs) ++ "\x7d")
  | v => jsonStringifyVal v

/-- The entry list built by `convertObjToGqlArg`'s `forEach` loop:
one `key: value` text per field, in object iteration order. -/
def gqlArgEntries : List (String × JsVal) → List String
  | [] => []
  | (k, v) :: rest => (k ++ ": " ++ jsTemplate (convertToGqlArg v)) :: gqlArgEntries rest

end

/-- `convertObjToGqlArg`: the comma-joined entry list, without braces. -/
def convertObjToGqlArg (fs : List (String × JsVal)) : String :=
  joinSep ", " (gqlArgEntries fs)

/-- Options of `Gql.toGqlArg` (the source also accepts a bare array as
shorthand for `{pick}`; that calling-convention sugar is represented by
the `pick` field). -/
structure GqlArgOpts where
  pick : Option (List String)
  curlyBrackets : Bool
  roundBrackets : Bool

/-- The default (absent) options object. -/
def noOpts : GqlArgOpts := GqlArgOpts.mk none false false

/-- `_.pick(arg, ks)`: keep the named keys, in pick-list order. -/
def pickKeys (fields : List (String × JsVal)) (ks : List String) : List (String × JsVal) :=
  ks.filterMap (fun k => (fields.find? (fun p => p.1 == k)).map (fun p => (k, p.2)))

/-- The encoding computed by `Gql.toGqlArg` before round-bracket
wrapping and the final fallback: a plain object goes through
`convertObjToGqlArg` (optionally pre-picked and optionally braced),
anything else through `convertToGqlArg` (`none` again modelling JS
`null`). -/
def Gql.toGqlArgCore (arg : JsVal) (opts : GqlArgOpts) : Option String :=
  match arg with
  | JsVal.obj fs =>
    let picked := match opts.pick with
      | some ks => pickKeys fs ks
      | none => fs
    let s := convertObjToGqlArg picked
    some (if opts.curlyBrackets then "\x7b" ++ s ++ "\x7d" else s)
  | v => convertToGqlArg v

/-- `Gql.toGqlArg`: wraps the core encoding in parentheses when
`roundBrackets` is set (a falsy encoding yields a single space there),
and falls back to the visible comment placeholder when the final text
is still falsy. -/
def Gql.toGqlArg (arg : JsVal) (opts : GqlArgOpts) : String :=
  let gqlArg := Gql.toGqlArgCore arg opts
  let gqlArg : Option String :=
    if opts.roundBrackets then
      some (match gqlArg with
            | some s => if s == "" then " " else "(" ++ s ++ ")"
            | none => " ")
    else gqlArg
  match gqlArg with
  | some s => if s == "" then "# no args <>\n" else s
  | none => "# no args <>\n"

/-- `Gql.enum`: tag a (truthy) string with the enum sentinel prefix. -/
def Gql.enum (val : String) : String :=
  if val != "" then enumMarker ++ val else val

/-- Tail-position search of the interpolation-classification regex
`/(?::|\()\s*$/`: some position holds `:` or `(` and everything after
it is whitespace. -/
def argSlotTail : List Char → Bool
  | [] => false
  | c :: rest => ((c == ':' || c == '(') && rest.all jsWs) || argSlotTail rest

/-- `(?::|\()\s*$` tested against a literal segment. -/
def argSlotTest (s : String) : Bool := argSlotTail s.data

/-- The field branch of the `Gql.tag` loop (`else if (arg) ...`): a
truthy string splices itself, a truthy array splices its truthy entries
joined by single spaces, anything else leaves the output unchanged. -/
def Gql.tagSplice (out : String) (arg : JsVal) : String :=
  if truthy arg then
    match arg with
    | JsVal.str t => out ++ t
    | JsVal.arr es => out ++ joinSep " " ((es.filter truthy).map jsToString)
    | _ => out
  else out

/-- The loop body of `Gql.tag`: for each further literal segment,
classify the interpolation by the regex on the previous segment, splice
the argument encoding or the field fragment, then append the segment. -/
def Gql.tagGo (prev : String) (rest : List String) (args : List JsVal) (out : String) : String :=
  match rest with
  | [] => out
  | s :: rest' =>
    Gql.tagGo s rest' args.tail
      ((if argSlotTest prev then out ++ Gql.toGqlArg (args.headD JsVal.undefined) noOpts
        else Gql.tagSplice out (args.headD JsVal.undefined)) ++ s)

/-- `Gql.tag`: the template-literal tag.  A tagged template always
supplies at least one literal segment; the empty segment list renders
as the empty string. -/
def Gql.tag (strings : List String) (args : List JsVal) : String :=
  match strings with
  | [] => ""
  | s :: rest => Gql.tagGo s rest args s

/-- Specification-worded classifier for an interpolation slot: the
previous literal segment, once trailing whitespace is ignored, ends
with a colon or an open parenthesis. -/
def endsColonOrParenChars : List Char → Bool
  | [] => false
  | c :: rest =>
    if rest.all jsWs then (c == ':' || c == '(') else endsColonOrParenChars rest

/-- String form of the specification-worded slot classifier. -/
def endsColonOrParen (s : String) : Bool := endsColonOrParenChars s.data

/-- Field-fragment text per the specification: a string splices
verbatim, a sequence splices its truthy entries joined by single
spaces, anything else contributes nothing. -/
def fieldFragmentText : JsVal → String
  | JsVal.str t => t
  | JsVal.arr es => joinSep " " ((es.filter truthy).map jsToString)
  | _ => ""

/-- Specification-worded template composition (section 4.2 of the
spec), written to compare against the source-derived `Gql.tag`: start
with the first segment, classify each slot by `endsColonOrParen` on the
preceding segment, splice the encoder output or the field fragment, and
append the following segment unconditionally. -/
def composeSpecGo (prev : String) (rest : List String) (values : List JsVal) (out : String) : String :=
  match rest with
  | [] => out
  | s :: rest' =>
    composeSpecGo s rest' values.tail
      ((if endsColonOrParen prev then out ++ Gql.toGqlArg (values.headD JsVal.undefined) noOpts
        else out ++ fieldFragmentText (values.headD JsVal.undefined)) ++ s)

/-- Top level of the specification-worded composition. -/
def composeSpec (strings : List String) (values : List JsVal) : String :=
  match strings with
  | [] => ""
  | s :: rest => composeSpecGo s rest values s

/-- The test `/^\s*query|mutation|subscription/.test(query)` exactly as
the source writes it: because alternation binds loosest, the regex
matches when the query starts (after optional whitespace) with `query`,
or contains `mutation` anywhere, or contains `subscription` anywhere. -/
def opKeywordTest (q : String) : Bool :=
  isPrefixChars ("query".data) (q.data.dropWhile jsWs)
  || containsSub ("mutation".data) q.data
  || containsSub ("subscription".data) q.data

/-- The test `/^\s*[a-zA-Z0-9]/.test(query)`: after optional leading
whitespace the query begins with an ASCII letter or digit. -/
def startsAlnum (q : String) : Bool :=
  match q.data.dropWhile jsWs with
  | [] => false
  | c :: _ => c.isAlpha || c.isDigit

/-- The query normalization inside `Gql.exec`: wrap bare selection text
as `query { ... }` when the first regex fails and the second holds. -/
def normalizeQuery (q : String) : String :=
  if !opKeywordTest q && startsAlnum q then "query \x7b " ++ q ++ " \x7d" else q

/-- The caller-provided cache (`opts.cache` with `get`/`set`), modelled
as a key-value association list; `ttl` bookkeeping belongs to the
external cache collaborator and does not alter which value a key maps
to, so it is not represented. -/
abbrev Cache := List (String × JsVal)

/-- First-occurrence association lookup (`cache.get(key)` / object key
lookup; JS never produces duplicate keys). -/
def lookupKey {A : Type} : List (String × A) → String → Option A
  | [], _ => none
  | p :: rest, k => if p.1 == k then some p.2 else lookupKey rest k

/-- Association update with `Object.assign` / `cache.set` semantics: an
existing key is overwritten in place, a new key is appended. -/
def setKey {A : Type} : List (String × A) → String → A → List (String × A)
  | [], k, v => [(k, v)]
  | p :: rest, k, v => if p.1 == k then (k, v) :: rest else p :: setKey rest k v

/-- Truthiness of the optional `cache.key` option. -/
def keyTruthy : Option String → Bool
  | none => false
  | some k => k != ""

/-- Outcome of one run of `Gql.exec`: the cache afterwards, the
resolved value (`none` when the underlying execution threw), and
whether the underlying remote/local execution path actually ran. -/
structure ExecResult where
  cache : Cache
  result : Option JsVal
  executed : Bool

/-- The cache read at the top of `Gql.exec`: `if (cached) return
cached` — a stored falsy value does not count as a hit. -/
def Gql.execHit (st : Cache) (k : String) : Option JsVal :=
  match lookupKey st k with
  | some v => if truthy v then some v else none
  | none => none

/-- The uncached tail of `Gql.exec`: normalize the query, run the
underlying execution (`_execApi` or `_execGraphql`, abstracted as the
`compute` argument since transport and engine are external
collaborators), and propagate its resolution or rejection. -/
def Gql.execRun (st : Cache) (query : String) (compute : String → Option JsVal) : ExecResult :=
  match compute (normalizeQuery query) with
  | some v => ExecResult.mk st (some v) true
  | none => ExecResult.mk st none true

/-- `Gql.exec`: when a cache is configured and a truthy key is
supplied, a truthy cached value short-circuits execution; otherwise the
underlying execution runs and a successful result is stored under the
key before being returned; a rejection stores nothing. -/
def Gql.exec (cacheConfigured : Bool) (st : Cache) (cacheKey : Option String)
    (query : String) (compute : String → Option JsVal) : ExecResult :=
  match cacheKey with
  | some k =>
    if k != "" && cacheConfigured then
      match Gql.execHit st k with
      | some v => ExecResult.mk st (some v) false
      | none =>
        match compute (normalizeQuery query) with
        | some v => ExecResult.mk (setKey st k v) (some v) true
        | none => ExecResult.mk st none true
    else Gql.execRun st query compute
  | none => Gql.execRun st query compute

/-- `Object.keys` on a JS value (array and string indices enumerate;
primitives have no own enumerable keys). -/
def jsKeys : JsVal → List String
  | JsVal.obj fs => fs.map (fun p => p.1)
  | JsVal.arr es => (List.range es.length).map (fun i => toString i)
  | JsVal.str s => (List.range s.length).map (fun i => toString i)
  | _ => []

/-- Property access `v[k]` (restricted to the shapes `Gql.get`
dereferences: object fields and array indices). -/
def jsGet : JsVal → String → JsVal
  | JsVal.obj fs, k =>
    match lookupKey fs k with
    | some v => v
    | none => JsVal.undefined
  | JsVal.arr es, k =>
    match (List.range es.length).find? (fun i => toString i == k) with
    | some i => es.getD i JsVal.undefined
    | none => JsVal.undefined
  | _, _ => JsVal.undefined

/-- The `in` operator `k in v`: JS throws a `TypeError` when the right
operand is not an object, which `none` models; for objects the own
enumerable keys answer, and for arrays the result is `false` for the
only key `Gql.get` ever tests (`nodes` is neither an index nor an own
or inherited array property; inherited prototype properties are not
otherwise represented). -/
def jsHasKey : JsVal → String → Option Bool
  | JsVal.obj fs, k => some (fs.any (fun p => p.1 == k))
  | JsVal.arr _, _ => some false
  | _, _ => none

/-- The reshaping tail of `Gql.get`: a falsy result is returned as is;
a result with exactly one top-level key unwraps to that key's value,
and further to `nodes` when that value's only key is `nodes`.  The
source guards the `in` test only with `newResult &&`, so a truthy
primitive single value reaches `'nodes' in newResult` and throws a
`TypeError`, modelled as `none`; the `&&` chain short-circuits, so a
falsy value never reaches the `in` test. -/
def getReshape (result : JsVal) : Option JsVal :=
  if truthy result = false then some result
  else
    let keys := jsKeys result
    if keys.length != 1 then some result
    else
      let newResult := jsGet result (keys.headD "")
      if truthy newResult then
        match jsHasKey newResult "nodes" with
        | none => none
        | some hasNodes =>
          if hasNodes && ((jsKeys newResult).length == 1)
          then some (jsGet newResult "nodes")
          else some newResult
      else some newResult

/-- `Gql.getAll`: execution plus caching, no reshaping. -/
def Gql.getAll (cacheConfigured : Bool) (st : Cache) (cacheKey : Option String)
    (query : String) (compute : String → Option JsVal) : ExecResult :=
  Gql.exec cacheConfigured st cacheKey query compute

/-- `Gql.get`: execution plus caching, then result reshaping on the
resolved value; a rejection of the execution propagates unchanged, and
a `TypeError` thrown by the reshaping `in` test also rejects the call
(`none` in the `result` field either way). -/
def Gql.get (cacheConfigured : Bool) (st : Cache) (cacheKey : Option String)
    (query : String) (compute : String → Option JsVal) : ExecResult :=
  match Gql.exec cacheConfigured st cacheKey query compute with
  | ExecResult.mk c r e => ExecResult.mk c (r.bind getReshape) e

/-- One field-level entry of the normalized error map
(`{message, keyword}`). -/
structure FieldDetail where
  message : String
  keyword : String
deriving DecidableEq

/-- `Object.assign(base, upd)`: fold every update entry into the base
map, last write winning on key collision. -/
def objAssign {A : Type} (base upd : List (String × A)) : List (String × A) :=
  upd.foldl (fun acc p => setKey acc p.1 p.2) base

/-- The value the last occurrence of a key carries in a flat update
stream (the specification's last-write-wins reading). -/
def lastWrite {A : Type} : List (String × A) → String → Option A
  | [], _ => none
  | p :: rest, k =>
    match lastWrite rest k with
    | some v => some v
    | none => if p.1 == k then some p.2 else none

/-- Concatenation of a list of update lists. -/
def catLists {A : Type} : List (List A) → List A
  | [] => []
  | l :: ls => l ++ catLists ls

/-- The synthetic entry inserted when no raw error yields field detail. -/
def globalUnknown : List (String × FieldDetail) :=
  [("global", FieldDetail.mk "Unknown Error" "unknown")]

/-- The `fields` map built by `Gql._execGraphql` from the formatted
errors: merge every error's `fields` with `Object.assign` starting from
the empty map, and substitute the synthetic `global`/`unknown` entry
when the merge stays empty. -/
def buildFields (fieldsOfErrors : List (List (String × FieldDetail))) : List (String × FieldDetail) :=
  let fields := fieldsOfErrors.foldl objAssign []
  if fields.isEmpty then globalUnknown else fields

/-- The thrown `GraphqlError` of the local path: message naming the
schema, the raw error list, and the merged field map. -/
structure GraphqlErrorModel (A : Type) where
  message : String
  errors : List A
  fields : List (String × FieldDetail)

/-- The result handling of `Gql._execGraphql` after the engine returns
`{data, errors}` (the engine itself — parse, optional validation,
execution — is the external `graphql` collaborator): an empty error
list resolves with the data, otherwise a `GraphqlError` carrying the
merged field map is thrown.  `fmt` is the pluggable per-error formatter
restricted to the only part `_execGraphql` reads from it, the `fields`
map of the formatted error. -/
def Gql.execGraphqlResult {A : Type} (fmt : A → List (String × FieldDetail))
    (schemaName : Option String) (data : JsVal) (errors : List A) :
    Except (GraphqlErrorModel A) JsVal :=
  if errors.isEmpty then Except.ok data
  else Except.error
    (GraphqlErrorModel.mk
      ("[schema:" ++ (match schemaName with | some n => n | none => "default") ++ "] Error in graphQL api")
      errors
      (buildFields (errors.map fmt)))

/-- The field map carried by a thrown local-path error, if one was
thrown. -/
def thrownFields {A : Type} : Except (GraphqlErrorModel A) JsVal → Option (List (String × FieldDetail))
  | Except.error e => some e.fields
  | Except.ok _ => none

/-! ### Helper lemmas -/

theorem argSlotTail_ws : ∀ (l : List Char), l.all jsWs = true → argSlotTail l = false := by
  intro l
  induction l with
  | nil => intro _; rfl
  | cons c rest ih =>
    intro h
    simp only [List.all_cons, Bool.and_eq_true] at h
    obtain ⟨hc, hrest⟩ := h
    have hcol : (c == ':' || c == '(') = false := by
      simp only [jsWs, Bool.or_eq_true, beq_iff_eq] at hc
      rcases hc with ((((h1 | h1) | h1) | h1) | h1) | h1 <;> subst h1 <;> rfl
    simp [argSlotTail, hcol, ih hrest]

theorem argSlotTail_eq_spec : ∀ (l : List Char), argSlotTail l = endsColonOrParenChars l := by
  intro l
  induction l with
  | nil => rfl
  | cons c rest ih =>
    cases h : rest.all jsWs with
    | true => simp [argSlotTail, endsColonOrParenChars, h, argSlotTail_ws rest h]
    | false => simp [argSlotTail, endsColonOrParenChars, h, ih]

theorem argSlotTest_eq_spec (s : String) : argSlotTest s = endsColonOrParen s :=
  argSlotTail_eq_spec s.data

theorem tagSplice_eq (out : String) (a : JsVal) :
    Gql.tagSplice out a = out ++ fieldFragmentText a := by
  cases a with
  | null => simp [Gql.tagSplice, truthy, fieldFragmentText, String.append_empty]
  | undefined => simp [Gql.tagSplice, truthy, fieldFragmentText, String.append_empty]
  | bool b => cases b <;> simp [Gql.tagSplice, truthy, fieldFragmentText, String.append_empty]
  | num n =>
    cases h : (n != 0) <;>
      simp [Gql.tagSplice, truthy, fieldFragmentText, h, String.append_empty]
  | str t =>
    by_cases h : t = ""
    · subst h; simp [Gql.tagSplice, truthy, fieldFragmentText, String.append_empty]
    · have hb : (t != "") = true := bne_iff_ne.mpr h
      simp [Gql.tagSplice, truthy, fieldFragmentText, hb]
  | arr es => simp [Gql.tagSplice, truthy, fieldFragmentText]
  | obj fs => simp [Gql.tagSplice, truthy, fieldFragmentText, String.append_empty]

theorem tagGo_eq_spec : ∀ (rest : List String) (prev : String) (args : List JsVal) (out : String),
    Gql.tagGo prev rest args out = composeSpecGo prev rest args out := by
  intro rest
  induction rest with
  | nil => intro prev args out; rfl
  | cons s rest' ih =>
    intro prev args out
    simp only [Gql.tagGo, composeSpecGo]
    rw [argSlotTest_eq_spec, tagSplice_eq]
    exact ih s args.tail _

theorem dropPrefixChars_self : ∀ (p l : List Char), dropPrefixChars p (p ++ l) = some l := by
  intro p l
  induction p with
  | nil => rfl
  | cons c ps ih => simp [dropPrefixChars, ih]

theorem all_false_of_mem {p : Char → Bool} :
    ∀ {l : List Char} {c : Char}, c ∈ l → p c = false → l.all p = false := by
  intro l
  induction l with
  | nil => intro c h; exact absurd h (List.not_mem_nil c)
  | cons d rest ih =>
    intro c hmem hfalse
    rcases List.mem_cons.mp hmem with h | h
    · subst h; simp [List.all_cons, hfalse]
    · simp [List.all_cons, ih h hfalse]

theorem lookupKey_setKey {A : Type} :
    ∀ (l : List (String × A)) (k : String) (v : A) (k' : String),
    lookupKey (setKey l k v) k' = if k == k' then some v else lookupKey l k' := by
  intro l
  induction l with
  | nil => intro k v k'; rfl
  | cons p rest ih =>
    intro k v k'
    cases h1 : (p.1 == k) with
    | true =>
      have hp : p.1 = k := beq_iff_eq.mp h1
      cases h2 : (k == k') with
      | true => simp [setKey, lookupKey, h1, h2]
      | false =>
        have hkk : (p.1 == k') = false := by rw [hp]; exact h2
        simp [setKey, lookupKey, h1, h2, hkk]
    | false =>
      cases h2 : (k == k') with
      | true =>
        have hk : k = k' := beq_iff_eq.mp h2
        have hpk : (p.1 == k') = false := by rw [← hk]; exact h1
        simp [setKey, lookupKey, h1, h2, hpk, ih]
      | false => simp [setKey, lookupKey, h1, h2, ih]

theorem lookupKey_objAssign {A : Type} :
    ∀ (upd base : List (String × A)) (k : String),
    lookupKey (objAssign base upd) k =
      (match lastWrite upd k with
       | some v => some v
       | none => lookupKey base k) := by
  intro upd
  induction upd with
  | nil => intro base k; rfl
  | cons p rest ih =>
    intro base k
    have hstep : objAssign base (p :: rest) = objAssign (setKey base p.1 p.2) rest := rfl
    rw [hstep, ih]
    cases hlw : lastWrite rest k with
    | some v => simp [lastWrite, hlw]
    | none =>
      simp only [lastWrite, hlw]
      rw [lookupKey_setKey]
      cases h : (p.1 == k) <;> simp [h]

theorem foldl_objAssign_cat {A : Type} :
    ∀ (ls : List (List (String × A))) (base : List (String × A)),
    ls.foldl objAssign base = objAssign base (catLists ls) := by
  intro ls
  induction ls with
  | nil => intro base; rfl
  | cons u us ih =>
    intro base
    simp only [List.foldl_cons, ih, catLists]
    show objAssign (objAssign base u) (catLists us) = objAssign base (u ++ catLists us)
    simp only [objAssign, List.foldl_append]

theorem setKey_ne_nil {A : Type} (l : List (String × A)) (k : String) (v : A) :
    setKey l k v ≠ [] := by
  cases l with
  | nil => simp [setKey]
  | cons p rest =>
    cases h : (p.1 == k) <;> simp [setKey, h]

theorem objAssign_ne_nil {A : Type} :
    ∀ (upd base : List (String × A)), base ≠ [] → objAssign base upd ≠ [] := by
  intro upd
  induction upd with
  | nil => intro base h; exact h
  | cons p rest ih =>
    intro base _
    exact ih (setKey base p.1 p.2) (setKey_ne_nil base p.1 p.2)

theorem foldl_objAssign_nil_iff {A : Type} (ls : List (List (String × A))) :
    ls.foldl objAssign [] = [] ↔ catLists ls = [] := by
  rw [foldl_objAssign_cat]
  constructor
  · intro h
    cases hc : catLists ls with
    | nil => rfl
    | cons p rest =>
      rw [hc] at h
      have hne : objAssign ([] : List (String × A)) (p :: rest) ≠ [] := by
        show objAssign (setKey [] p.1 p.2) rest ≠ []
        exact objAssign_ne_nil rest _ (setKey_ne_nil [] p.1 p.2)
      exact absurd h hne
  · intro h; rw [h]; rfl

theorem paren_ne_empty (s : String) : ("(" ++ s ++ ")") ≠ "" := by
  intro h
  have hd : ("(" ++ s ++ ")").data = ("" : String).data := by rw [h]
  rw [String.data_append, String.data_append] at hd
  simp at hd

/-! ### Claim theorems -/

/-- C4: in a template composition, an interpolation slot is treated as
an argument exactly when the immediately preceding literal segment
matches `/(?::|\()\s*$/` (ends with a colon or an open parenthesis,
optionally followed by whitespace), and the encoder output is then
spliced in — `Gql.tag` coincides with the specification-worded
`composeSpec` on every input; concretely, composing
`["q(id:", ") \x7b name \x7d"]` with `42` yields `"q(id:42) \x7b name \x7d"`. -/
theorem C4_tag_argument_classification :
    (∀ (strings : List String) (args : List JsVal),
        Gql.tag strings args = composeSpec strings args)
    ∧ Gql.tag ["q(id:", ") \x7b name \x7d"] [JsVal.num 42] = "q(id:42) \x7b name \x7d" := by
  constructor
  · intro strings args
    cases strings with
    | nil => rfl
    | cons s rest => exact tagGo_eq_spec rest s args s
  · rfl

/-- C5: in a field-fragment slot a string value splices verbatim, an
array value splices its truthy entries joined by single spaces, a falsy
non-string value contributes nothing, and the following literal segment
is always appended; concretely `["\x7b ", " \x7d"]` with
`["name", null, "age"]` composes to `"\x7b name age \x7d"`. -/
theorem C5_field_fragment_splice :
    (∀ (s₀ s₁ t : String), argSlotTest s₀ = false →
        Gql.tag [s₀, s₁] [JsVal.str t] = s₀ ++ t ++ s₁)
    ∧ (∀ (s₀ s₁ : String) (es : List JsVal), argSlotTest s₀ = false →
        Gql.tag [s₀, s₁] [JsVal.arr es] =
          s₀ ++ joinSep " " ((es.filter truthy).map jsToString) ++ s₁)
    ∧ (∀ (s₀ s₁ : String) (a : JsVal), argSlotTest s₀ = false → truthy a = false →
        Gql.tag [s₀, s₁] [a] = s₀ ++ s₁)
    ∧ Gql.tag ["\x7b ", " \x7d"] [JsVal.arr [JsVal.str "name", JsVal.null, JsVal.str "age"]]
        = "\x7b name age \x7d" := by
  refine ⟨?_, ?_, ?_, rfl⟩
  · intro s₀ s₁ t h
    show (if argSlotTest s₀ then s₀ ++ Gql.toGqlArg (JsVal.str t) noOpts
          else Gql.tagSplice s₀ (JsVal.str t)) ++ s₁ = s₀ ++ t ++ s₁
    rw [h]
    simp only [Bool.false_eq_true, if_false, tagSplice_eq, fieldFragmentText]
  · intro s₀ s₁ es h
    show (if argSlotTest s₀ then s₀ ++ Gql.toGqlArg (JsVal.arr es) noOpts
          else Gql.tagSplice s₀ (JsVal.arr es)) ++ s₁
        = s₀ ++ joinSep " " ((es.filter truthy).map jsToString) ++ s₁
    rw [h]
    simp only [Bool.false_eq_true, if_false, tagSplice_eq, fieldFragmentText]
  · intro s₀ s₁ a h htr
    show (if argSlotTest s₀ then s₀ ++ Gql.toGqlArg a noOpts
          else Gql.tagSplice s₀ a) ++ s₁ = s₀ ++ s₁
    rw [h]
    simp only [Bool.false_eq_true, if_false, Gql.tagSplice, htr]

/-- C5 witness: the string-fragment case of `C5_field_fragment_splice`
instantiated at a concrete non-argument slot. -/
theorem C5_field_fragment_splice_witness :
    argSlotTest "\x7b " = false ∧
    Gql.tag ["\x7b ", " \x7d"] [JsVal.str "name"] = "\x7b " ++ "name" ++ " \x7d" :=
  ⟨by decide, C5_field_fragment_splice.1 "\x7b " " \x7d" "name" (by decide)⟩

/-- C6: a string matching the enum-sentinel pattern (the fixed prefix
followed by a `[A-Za-z_]+` identifier) is emitted as the bare
identifier, any other string as a JSON quoted/escaped literal; in
particular `encode(enum("ACTIVE"))` is the bare token `ACTIVE`. -/
theorem C6_enum_sentinel_encoding :
    (∀ (id : String), id.data ≠ [] → id.data.all isEnumIdentChar = true →
        convertStrToGqlArg (enumMarker ++ id) = id)
    ∧ (∀ (s : String), enumCapture s = none → convertStrToGqlArg s = jsonQuote s)
    ∧ convertStrToGqlArg (Gql.enum "ACTIVE") = "ACTIVE"
    ∧ convertToGqlArg (JsVal.str "plain string") = some (jsonQuote "plain string") := by
  refine ⟨?_, ?_, rfl, rfl⟩
  · intro id hne hall
    have hdp : dropPrefixChars enumMarker.data (enumMarker.data ++ id.data) = some id.data :=
      dropPrefixChars_self enumMarker.data id.data
    have hall' : ∀ x ∈ id.data, isEnumIdentChar x = true := List.all_eq_true.mp hall
    have hcap : enumCapture (enumMarker ++ id) = some id := by
      simp [enumCapture, hdp, hne]
      exact hall'
    simp [convertStrToGqlArg, hcap]
  · intro s h
    simp [convertStrToGqlArg, h]

/-- C6 witness: the enum branch of `C6_enum_sentinel_encoding` at the
identifier `ACTIVE`. -/
theorem C6_enum_sentinel_encoding_witness :
    ("ACTIVE" : String).data ≠ [] ∧
    ("ACTIVE" : String).data.all isEnumIdentChar = true ∧
    convertStrToGqlArg (enumMarker ++ "ACTIVE") = "ACTIVE" :=
  ⟨by decide, by decide, C6_enum_sentinel_encoding.1 "ACTIVE" (by decide) (by decide)⟩

/-- C10: the enum-sentinel recognition accepts only `[A-Za-z_]`
identifiers — a sentinel-prefixed string whose suffix contains any
other character (such as the digit in `STATE1`) is not unwrapped but
emitted whole as a quoted JSON literal. -/
theorem C10_enum_ident_chars_only :
    (∀ (suffix : String), (∃ c ∈ suffix.data, isEnumIdentChar c = false) →
        convertStrToGqlArg (enumMarker ++ suffix) = jsonQuote (enumMarker ++ suffix))
    ∧ convertStrToGqlArg (Gql.enum "STATE1") = jsonQuote (enumMarker ++ "STATE1")
    ∧ jsonQuote (enumMarker ++ "STATE1") = "\"__ENUM__::STATE1\"" := by
  refine ⟨?_, rfl, rfl⟩
  intro suffix h
  obtain ⟨c, hmem, hfalse⟩ := h
  have hdp : dropPrefixChars enumMarker.data (enumMarker.data ++ suffix.data) = some suffix.data :=
    dropPrefixChars_self enumMarker.data suffix.data
  have hnot : ¬ (∀ x ∈ suffix.data, isEnumIdentChar x = true) := by
    intro hforall
    rw [hforall c hmem] at hfalse
    cases hfalse
  have hcap : enumCapture (enumMarker ++ suffix) = none := by
    simp [enumCapture, hdp, hnot]
  simp [convertStrToGqlArg, hcap]

/-- C10 witness: `C10_enum_ident_chars_only` at the suffix `STATE1`,
whose digit `1` is outside the accepted character class. -/
theorem C10_enum_ident_chars_only_witness :
    (∃ c ∈ ("STATE1" : String).data, isEnumIdentChar c = false) ∧
    convertStrToGqlArg (enumMarker ++ "STATE1") = jsonQuote (enumMarker ++ "STATE1") :=
  ⟨by decide, C10_enum_ident_chars_only.1 "STATE1" (by decide)⟩

/-- C7 counterexample: at a top-level `toGqlArg` call a `null` argument
does not produce the literal `null` — the encoder's JS-`null` result is
falsy, so the comment placeholder is returned instead. -/
theorem C7_counterexample_toplevel_null :
    Gql.toGqlArg JsVal.null noOpts = "# no args <>\n" ∧
    Gql.toGqlArg JsVal.null noOpts ≠ "null" :=
  ⟨rfl, by decide⟩

/-- C7 amended: inside an encoded mapping a `null`/`undefined` value
emits the literal `null` (via template-literal coercion of the
encoder's JS `null`), but at a top-level `toGqlArg` call the falsy
encoding yields the comment placeholder `"# no args <>\n"` (or the
single space `" "` when round brackets are requested), never the text
`null`. -/
theorem C7_null_encoding_amended :
    (∀ (k : String), convertObjToGqlArg [(k, JsVal.null)] = k ++ ": null")
    ∧ (∀ (k : String), convertObjToGqlArg [(k, JsVal.undefined)] = k ++ ": null")
    ∧ convertToGqlArg (JsVal.obj [("a", JsVal.null), ("b", JsVal.num 1)])
        = some "\x7ba: null, b: 1\x7d"
    ∧ Gql.toGqlArg JsVal.null noOpts = "# no args <>\n"
    ∧ Gql.toGqlArg JsVal.undefined noOpts = "# no args <>\n"
    ∧ Gql.toGqlArg JsVal.null (GqlArgOpts.mk none false true) = " " := by
  refine ⟨?_, ?_, rfl, rfl, rfl, rfl⟩ <;>
  · intro k
    show k ++ ": " ++ "null" = k ++ ": null"
    rw [String.append_assoc]
    rfl

/-- C8 counterexample: with round brackets requested an empty encoding
returns a single space, not the comment placeholder; and the
placeholder itself carries a trailing newline, so it is not the bare
text `# no args <>`. -/
theorem C8_counterexample_empty_encoding :
    Gql.toGqlArg (JsVal.obj []) (GqlArgOpts.mk none false true) = " " ∧
    (" " : String) ≠ "# no args <>" ∧
    Gql.toGqlArg (JsVal.obj []) noOpts = "# no args <>\n" ∧
    ("# no args <>\n" : String) ≠ "# no args <>" :=
  ⟨rfl, by decide, rfl, by decide⟩

/-- C8 amended: when round brackets are requested the encoded text is
wrapped in parentheses only if it is non-empty and a falsy encoding
yields the single space `" "`; the comment placeholder
`"# no args <>\n"` (with trailing newline) is returned exactly when
round brackets are not requested and the encoding is falsy. -/
theorem C8_round_brackets_amended :
    (∀ (arg : JsVal) (opts : GqlArgOpts) (s : String),
        opts.roundBrackets = true → Gql.toGqlArgCore arg opts = some s → s ≠ "" →
        Gql.toGqlArg arg opts = "(" ++ s ++ ")")
    ∧ (∀ (arg : JsVal) (opts : GqlArgOpts),
        opts.roundBrackets = true →
        (Gql.toGqlArgCore arg opts = some "" ∨ Gql.toGqlArgCore arg opts = none) →
        Gql.toGqlArg arg opts = " ")
    ∧ (∀ (arg : JsVal) (opts : GqlArgOpts),
        opts.roundBrackets = false →
        (Gql.toGqlArgCore arg opts = some "" ∨ Gql.toGqlArgCore arg opts = none) →
        Gql.toGqlArg arg opts = "# no args <>\n") := by
  refine ⟨?_, ?_, ?_⟩
  · intro arg opts s hrb hcore hs
    have hp : ("(" ++ s ++ ")") ≠ "" := paren_ne_empty s
    simp [Gql.toGqlArg, hrb, hcore, hs, hp]
  · intro arg opts hrb hcore
    rcases hcore with h | h <;> simp [Gql.toGqlArg, hrb, h]
  · intro arg opts hrb hcore
    rcases hcore with h | h <;> simp [Gql.toGqlArg, hrb, h]

/-- C8 witness: the parenthesis-wrapping branch of
`C8_round_brackets_amended` at a one-field object argument. -/
theorem C8_round_brackets_amended_witness :
    (GqlArgOpts.mk none false true).roundBrackets = true ∧
    Gql.toGqlArgCore (JsVal.obj [("id", JsVal.num 5)]) (GqlArgOpts.mk none false true)
      = some "id: 5" ∧
    ("id: 5" : String) ≠ "" ∧
    Gql.toGqlArg (JsVal.obj [("id", JsVal.num 5)]) (GqlArgOpts.mk none false true)
      = "(" ++ "id: 5" ++ ")" :=
  ⟨rfl, rfl, by decide,
    C8_round_brackets_amended.1 (JsVal.obj [("id", JsVal.num 5)])
      (GqlArgOpts.mk none false true) "id: 5" rfl rfl (by decide)⟩

/-- C1: evaluation of the `exec` query normalization at the claim's
examples and at a failing input.  The source test
`/^\s*query|mutation|subscription/` matches `mutation` or
`subscription` anywhere in the string (alternation binds loosest), so
`"user \x7b subscriptionPlan \x7d"` — which starts with a bare
identifier and no operation keyword — is left unwrapped, against the
claimed wrap-iff-no-leading-keyword rule; the claim's two concrete
examples do hold. -/
theorem C1_normalization_eval :
    normalizeQuery "user \x7b subscriptionPlan \x7d" = "user \x7b subscriptionPlan \x7d"
    ∧ normalizeQuery "user \x7b id \x7d" = "query \x7b user \x7b id \x7d \x7d"
    ∧ normalizeQuery "query \x7b user \x7b id \x7d \x7d" = "query \x7b user \x7b id \x7d \x7d"
    ∧ opKeywordTest "user \x7b subscriptionPlan \x7d" = true
    ∧ startsAlnum "user \x7b subscriptionPlan \x7d" = true :=
  ⟨rfl, rfl, rfl, rfl, rfl⟩

theorem exec_cached_eq (st : Cache) (k : String) (hk : (k != "") = true)
    (q : String) (compute : String → Option JsVal) :
    Gql.exec true st (some k) q compute =
      (match Gql.execHit st k with
       | some v => ExecResult.mk st (some v) false
       | none =>
         match compute (normalizeQuery q) with
         | some v => ExecResult.mk (setKey st k v) (some v) true
         | none => ExecResult.mk st none true) := by
  simp [Gql.exec, hk]

theorem execHit_setKey_self (st : Cache) (k : String) (v : JsVal) (htr : truthy v = true) :
    Gql.execHit (setKey st k v) k = some v := by
  simp [Gql.execHit, lookupKey_setKey, htr]

theorem execHit_none_of_lookup_none (st : Cache) (k : String) (h : lookupKey st k = none) :
    Gql.execHit st k = none := by
  simp [Gql.execHit, h]

theorem execRun_executed (st : Cache) (q : String) (c : String → Option JsVal) :
    (Gql.execRun st q c).executed = true := by
  unfold Gql.execRun
  cases c (normalizeQuery q) <;> rfl

/-- C2: with a cache configured and a truthy key, a successful (truthy)
first `exec` stores its result so a second call with the same key is
served from the cache without running the underlying execution; a
failed first call writes nothing, so a subsequent call executes again;
without a cache or without a key the underlying execution always runs. -/
theorem C2_cache_idempotence :
    (∀ (st : Cache) (k q : String) (compute : String → Option JsVal) (v : JsVal),
        k ≠ "" → truthy v = true →
        (Gql.exec true st (some k) q compute).result = some v →
        ∀ (q₂ : String) (c₂ : String → Option JsVal),
          (Gql.exec true (Gql.exec true st (some k) q compute).cache (some k) q₂ c₂).executed
              = false ∧
          (Gql.exec true (Gql.exec true st (some k) q compute).cache (some k) q₂ c₂).result
              = some v)
    ∧ (∀ (st : Cache) (k q : String) (compute : String → Option JsVal),
        k ≠ "" → lookupKey st k = none → compute (normalizeQuery q) = none →
        (Gql.exec true st (some k) q compute).cache = st ∧
        (Gql.exec true st (some k) q compute).result = none ∧
        (Gql.exec true st (some k) q compute).executed = true ∧
        (∀ (q₂ : String) (c₂ : String → Option JsVal),
          (Gql.exec true (Gql.exec true st (some k) q compute).cache (some k) q₂ c₂).executed
            = true))
    ∧ (∀ (st : Cache) (ck : Option String) (q : String) (c : String → Option JsVal),
        (Gql.exec false st ck q c).executed = true)
    ∧ (∀ (st : Cache) (q : String) (c : String → Option JsVal),
        (Gql.exec true st none q c).executed = true) := by
  refine ⟨?_, ?_, ?_, ?_⟩
  · intro st k q compute v hk htr hres q₂ c₂
    have hkb : (k != "") = true := bne_iff_ne.mpr hk
    rw [exec_cached_eq st k hkb q compute] at hres ⊢
    cases hhit : Gql.execHit st k with
    | some w =>
      rw [hhit] at hres
      have hw : w = v := by simpa using hres
      have hgoal : (Gql.exec true st (some k) q₂ c₂).executed = false ∧
          (Gql.exec true st (some k) q₂ c₂).result = some w := by
        rw [exec_cached_eq st k hkb q₂ c₂, hhit]
        exact ⟨rfl, rfl⟩
      rw [← hw]
      exact hgoal
    | none =>
      rw [hhit] at hres
      cases hc : compute (normalizeQuery q) with
      | some w =>
        rw [hc] at hres
        have hw : w = v := by simpa using hres
        have htw : truthy w = true := by rw [hw]; exact htr
        have hgoal : (Gql.exec true (setKey st k w) (some k) q₂ c₂).executed = false ∧
            (Gql.exec true (setKey st k w) (some k) q₂ c₂).result = some w := by
          rw [exec_cached_eq (setKey st k w) k hkb q₂ c₂, execHit_setKey_self st k w htw]
          exact ⟨rfl, rfl⟩
        rw [← hw]
        exact hgoal
      | none =>
        rw [hc] at hres
        simp at hres
  · intro st k q compute hk hlk hc
    have hkb : (k != "") = true := bne_iff_ne.mpr hk
    have hhit := execHit_none_of_lookup_none st k hlk
    have hrun : Gql.exec true st (some k) q compute = ExecResult.mk st none true := by
      rw [exec_cached_eq st k hkb q compute, hhit, hc]
    refine ⟨?_, ?_, ?_, ?_⟩
    · rw [hrun]
    · rw [hrun]
    · rw [hrun]
    · intro q₂ c₂
      rw [hrun]
      show (Gql.exec true st (some k) q₂ c₂).executed = true
      rw [exec_cached_eq st k hkb q₂ c₂, hhit]
      cases c₂ (normalizeQuery q₂) <;> rfl
  · intro st ck q c
    cases ck with
    | none => exact execRun_executed st q c
    | some k =>
      have heq : Gql.exec false st (some k) q c = Gql.execRun st q c := by
        simp [Gql.exec]
      rw [heq]
      exact execRun_executed st q c
  · intro st q c
    exact execRun_executed st q c

/-- C2 witness: `C2_cache_idempotence` at a concrete empty cache, key
`k1` and an execution resolving with the (truthy) value `1`. -/
theorem C2_cache_idempotence_witness :
    ("k1" : String) ≠ "" ∧
    truthy (JsVal.num 1) = true ∧
    (Gql.exec true [] (some "k1") "q" (fun _ => some (JsVal.num 1))).result
      = some (JsVal.num 1) ∧
    ((Gql.exec true (Gql.exec true [] (some "k1") "q" (fun _ => some (JsVal.num 1))).cache
        (some "k1") "q" (fun _ => some (JsVal.num 1))).executed = false ∧
     (Gql.exec true (Gql.exec true [] (some "k1") "q" (fun _ => some (JsVal.num 1))).cache
        (some "k1") "q" (fun _ => some (JsVal.num 1))).result = some (JsVal.num 1)) :=
  ⟨by decide, rfl, rfl,
    C2_cache_idempotence.1 [] "k1" "q" (fun _ => some (JsVal.num 1)) (JsVal.num 1)
      (by decide) rfl rfl "q" (fun _ => some (JsVal.num 1))⟩

/-- C9 counterexample: a successful result with exactly one top-level
key whose value is a truthy primitive does not unwrap to that value —
the source's `'nodes' in newResult` test throws a `TypeError` on a
primitive right operand, so `get` rejects instead of returning it. -/
theorem C9_counterexample_primitive_value :
    getReshape (JsVal.obj [("user", JsVal.str "x")]) = none ∧
    getReshape (JsVal.obj [("user", JsVal.str "x")]) ≠ some (JsVal.str "x") ∧
    getReshape (JsVal.obj [("count", JsVal.num 5)]) = none ∧
    (Gql.get false [] none "q"
        (fun _ => some (JsVal.obj [("user", JsVal.str "x")]))).result = none :=
  ⟨rfl, fun h => Option.noConfusion h, rfl, rfl⟩

/-- C9 amended: a successful `get` result with exactly one top-level
key unwraps to that key's value when that value is falsy or an object
or an array — further unwrapped to the nodes array when it is a
mapping whose only key is `nodes` — but when that value is a truthy
primitive (non-empty string, non-zero number, `true`) the `in` test
throws a `TypeError` and `get` rejects; a result with two or more
top-level keys is returned unchanged; `getAll` never reshapes. -/
theorem C9_get_unwrapping_amended :
    (∀ (k : String) (v : JsVal), truthy v = false →
        getReshape (JsVal.obj [(k, v)]) = some v)
    ∧ (∀ (k : String) (gs : List (String × JsVal)),
        (∀ nv, JsVal.obj gs ≠ JsVal.obj [("nodes", nv)]) →
        getReshape (JsVal.obj [(k, JsVal.obj gs)]) = some (JsVal.obj gs))
    ∧ (∀ (k : String) (es : List JsVal),
        getReshape (JsVal.obj [(k, JsVal.arr es)]) = some (JsVal.arr es))
    ∧ (∀ (k : String) (nv : JsVal),
        getReshape (JsVal.obj [(k, JsVal.obj [("nodes", nv)])]) = some nv)
    ∧ (∀ (k s : String), s ≠ "" → getReshape (JsVal.obj [(k, JsVal.str s)]) = none)
    ∧ (∀ (k : String) (n : Int), n ≠ 0 → getReshape (JsVal.obj [(k, JsVal.num n)]) = none)
    ∧ (∀ (k : String), getReshape (JsVal.obj [(k, JsVal.bool true)]) = none)
    ∧ (∀ (fs : List (String × JsVal)), 2 ≤ fs.length →
        getReshape (JsVal.obj fs) = some (JsVal.obj fs))
    ∧ (∀ (cc : Bool) (st : Cache) (ck : Option String) (q : String)
        (c : String → Option JsVal),
        Gql.getAll cc st ck q c = Gql.exec cc st ck q c)
    ∧ (∀ (cc : Bool) (st : Cache) (ck : Option String) (q : String)
        (c : String → Option JsVal),
        (Gql.get cc st ck q c).result = ((Gql.exec cc st ck q c).result).bind getReshape)
    ∧ getReshape (JsVal.obj [("user", JsVal.obj [("name", JsVal.str "A")])])
        = some (JsVal.obj [("name", JsVal.str "A")]) := by
  refine ⟨?_, ?_, ?_, ?_, ?_, ?_, ?_, ?_, ?_, ?_, rfl⟩
  · intro k v htr
    have hobj : truthy (JsVal.obj [(k, v)]) = true := rfl
    simp [getReshape, jsKeys, jsGet, lookupKey, htr, hobj]
  · intro k gs hv
    cases gs with
    | nil => simp [getReshape, jsKeys, jsGet, lookupKey, truthy, jsHasKey]
    | cons p rest =>
      cases rest with
      | nil =>
        obtain ⟨a, b⟩ := p
        cases hp : (a == "nodes") with
        | true =>
          exfalso
          have ha : a = "nodes" := beq_iff_eq.mp hp
          subst ha
          exact absurd rfl (hv b)
        | false => simp [getReshape, jsKeys, jsGet, lookupKey, truthy, jsHasKey, hp]
      | cons r rest' => simp [getReshape, jsKeys, jsGet, lookupKey, truthy, jsHasKey]
  · intro k es
    simp [getReshape, jsKeys, jsGet, lookupKey, truthy, jsHasKey]
  · intro k nv
    simp [getReshape, jsKeys, jsGet, jsHasKey, truthy, lookupKey]
  · intro k s hs
    have hb : (s != "") = true := bne_iff_ne.mpr hs
    simp [getReshape, jsKeys, jsGet, lookupKey, truthy, jsHasKey, hb]
  · intro k n hn
    have hb : (n != 0) = true := bne_iff_ne.mpr hn
    simp [getReshape, jsKeys, jsGet, lookupKey, truthy, jsHasKey, hb]
  · intro k
    simp [getReshape, jsKeys, jsGet, lookupKey, truthy, jsHasKey]
  · intro fs h
    have h1 : fs.length ≠ 1 := by omega
    have hb : (fs.length != 1) = true := bne_iff_ne.mpr h1
    simp [getReshape, jsKeys, truthy, hb]
  · intro cc st ck q c
    rfl
  · intro cc st ck q c
    unfold Gql.get
    cases Gql.exec cc st ck q c with
    | mk a r e => rfl

/-- C9 witness: the object-value unwrap branch of
`C9_get_unwrapping_amended` at a result whose single value is a
mapping that is not a nodes-only mapping. -/
theorem C9_get_unwrapping_amended_witness :
    (∀ nv, JsVal.obj [("name", JsVal.str "A")] ≠ JsVal.obj [("nodes", nv)]) ∧
    getReshape (JsVal.obj [("user", JsVal.obj [("name", JsVal.str "A")])])
      = some (JsVal.obj [("name", JsVal.str "A")]) :=
  ⟨fun nv => by simp,
    C9_get_unwrapping_amended.2.1 "user" [("name", JsVal.str "A")] (fun nv => by simp)⟩
/-- C3: when the local path's result carries a non-empty error list,
the thrown `GraphqlError` carries the field map obtained by merging the
formatter's fields of each raw error in order with last-write-wins on
key collision (`lastWrite` over the concatenated updates); that map is
never empty, and when no raw error contributes any field it is exactly
the synthetic `global`/`unknown` entry. -/
theorem C3_error_fields_invariant :
    (∀ (A : Type) (fmt : A → List (String × FieldDetail)) (sn : Option String)
        (data : JsVal) (errors : List A), errors ≠ [] →
        thrownFields (Gql.execGraphqlResult fmt sn data errors)
          = some (buildFields (errors.map fmt)))
    ∧ (∀ (l : List (List (String × FieldDetail))), buildFields l ≠ [])
    ∧ (∀ (l : List (List (String × FieldDetail))) (k : String), catLists l ≠ [] →
        lookupKey (buildFields l) k = lastWrite (catLists l) k)
    ∧ (∀ (l : List (List (String × FieldDetail))), catLists l = [] →
        buildFields l = globalUnknown) := by
  refine ⟨?_, ?_, ?_, ?_⟩
  · intro A fmt sn data errors h
    cases errors with
    | nil => exact absurd rfl h
    | cons e es => rfl
  · intro l
    unfold buildFields
    cases hx : l.foldl objAssign [] with
    | nil => simp [globalUnknown]
    | cons p rest => simp
  · intro l k h
    have hne : l.foldl objAssign ([] : List (String × FieldDetail)) ≠ [] := by
      intro hh
      exact h ((foldl_objAssign_nil_iff l).mp hh)
    unfold buildFields
    cases hx : l.foldl objAssign ([] : List (String × FieldDetail)) with
    | nil => exact absurd hx hne
    | cons p rest =>
      have hcast : lookupKey (p :: rest) k = lastWrite (catLists l) k := by
        rw [← hx, foldl_objAssign_cat, lookupKey_objAssign]
        cases lastWrite (catLists l) k <;> rfl
      simpa using hcast
  · intro l h
    have hx : l.foldl objAssign ([] : List (String × FieldDetail)) = [] := by
      rw [foldl_objAssign_cat, h]
      rfl
    unfold buildFields
    rw [hx]
    rfl

/-- C3 witness: `C3_error_fields_invariant` at two concrete raw errors,
the first contributing an `email` field and the second contributing
nothing. -/
theorem C3_error_fields_invariant_witness :
    ([1, 2] : List Nat) ≠ [] ∧
    thrownFields (Gql.execGraphqlResult
        (fun n => if n == 1 then [("email", FieldDetail.mk "Invalid" "invalid")] else [])
        none JsVal.null [1, 2])
      = some (buildFields (([1, 2] : List Nat).map
          (fun n => if n == 1 then [("email", FieldDetail.mk "Invalid" "invalid")] else []))) :=
  ⟨by decide, C3_error_fields_invariant.1 Nat
      (fun n => if n == 1 then [("email", FieldDetail.mk "Invalid" "invalid")] else [])
      none JsVal.null [1, 2] (by decide)⟩
